import Mathlib

/-!
Verification model of the sqlitePorter module (www/sqlitePorter.js).

The JavaScript source is shallowly embedded: strings are Lean `String`s
(manipulated through their `List Char` data), the JSON scalar values that can
appear in a Document are the inductive `JVal`, SQL text built by string
concatenation in the source is built by `++` here, and each place where the
source appends the statement separator `";\n"` is modelled as a statement
boundary in a `List String`.  Asynchronous callback-driven execution is
modelled as a trace of events produced by a backend oracle
`exec : String → Option String` (`none` = statement succeeded, `some msg` =
backend rejected it with message `msg`).
-/

/-- The backtick character, written by code point to keep it out of the
plain program text. -/
def backtick : Char := Char.ofNat 96

/-- JavaScript `\s` (the ASCII part, which is all the source ever meets):
space, tab, newline, carriage return, vertical tab, form feed. -/
def jsWs (c : Char) : Bool :=
  c = ' ' || c = '\t' || c = '\n' || c = '\r' || c = Char.ofNat 11 || c = Char.ofNat 12

/-- JavaScript regex `.`: any character except a line terminator. -/
def jsDot (c : Char) : Bool :=
  !(c = '\n' || c = '\r' || c = Char.ofNat 0x2028 || c = Char.ofNat 0x2029)

/-- Drop trailing JS whitespace (the `replace(/\s+$/,"")` half of
`trimWhitespace`). -/
def trimTrail (l : List Char) : List Char :=
  (l.reverse.dropWhile jsWs).reverse

/-- `trimWhitespace` from the source: strip leading (`/^\s+/`) and trailing
(`/\s+$/`) whitespace. -/
def trimChars (l : List Char) : List Char :=
  trimTrail (l.dropWhile jsWs)

/-- `trimWhitespace` lifted to `String`. -/
def trimS (s : String) : String :=
  ⟨trimChars s.data⟩

/-- ASCII lowering, modelling JS `String.prototype.toLowerCase` on the
ASCII range (the only range the source compares against). -/
def toLowerAscii (s : String) : String :=
  ⟨s.data.map Char.toLower⟩

/-- Split `l` at the first occurrence of `pat`, returning the part before and
the part after (JS `indexOf` / single `replace` search). -/
def findSplit (pat : List Char) : List Char → Option (List Char × List Char)
  | [] => if pat.isEmpty then some ([], []) else none
  | c :: cs =>
    if pat.isPrefixOf (c :: cs) then some ([], (c :: cs).drop pat.length)
    else
      match findSplit pat cs with
      | some (pre, post) => some (c :: pre, post)
      | none => none

/-- JS `s.indexOf(pat) != -1`. -/
def containsSub (s pat : String) : Bool :=
  (findSplit pat.data s.data).isSome

/-- JS `s.replace(pat, repl)` with a string pattern: replace the first
occurrence only. -/
def replaceFirstStr (s pat repl : String) : String :=
  match findSplit pat.data s.data with
  | some (pre, post) => ⟨pre⟩ ++ repl ++ ⟨post⟩
  | none => s

/-- A JSON scalar as it can appear in a Document row (string, number,
boolean or null).  Numbers are modelled as integers. -/
inductive JVal where
  | s (v : String)
  | i (n : Int)
  | b (v : Bool)
  | null
deriving DecidableEq, Repr

/-- JS stringification `value + ""` for the non-null scalars. -/
def jvalToString : JVal → String
  | .s v => v
  | .i n => toString n
  | .b true => "true"
  | .b false => "false"
  | .null => "null"

/-- Double every single quote (the `replace(/'/g,"''")` in
`sanitiseForSql`). -/
def escapeQuotes (s : String) : String :=
  ⟨s.data.flatMap (fun c => if c = '\'' then ['\'', '\''] else [c])⟩

/-- `sanitiseForSql` from the source: `null`/`undefined` map to the JS
`null` value (modelled as `none`); any other value is stringified and has
its single quotes doubled. -/
def sanitiseForSql : JVal → Option String
  | .null => none
  | v => some (escapeQuotes (jvalToString v))

/-- JS string concatenation with a possibly-`null` operand: `null` prints
as the four characters `null`. -/
def jsStr : Option String → String
  | none => "null"
  | some s => s

/-- The test of `sqlEscape`: `value.match(/[_-]+/)` succeeds iff the value
contains an underscore or a hyphen. -/
def needsSqlEscape (s : String) : Bool :=
  s.data.any (fun c => c = '_' || c = '-')

/-- `sqlEscape` from the source: wrap in backticks when the value contains
an underscore or hyphen, otherwise return it unchanged. -/
def sqlEscape (value : String) : String :=
  if needsSqlEscape value then "`" ++ value ++ "`" else value

/-- Search for the first match of the regex `` `([^`]+)` `` and return its
capture group: the first backtick that is followed by at least one
non-backtick character and then another backtick. -/
def findBacktickGroup : List Char → Option (List Char)
  | [] => none
  | c :: cs =>
    if c = backtick then
      let run := cs.takeWhile (fun d => d != backtick)
      match cs.drop run.length with
      | d :: _ =>
        if d = backtick && !run.isEmpty then some run else findBacktickGroup cs
      | [] => findBacktickGroup cs
    else findBacktickGroup cs

/-- `sqlUnescape` from the source: if the value matches `` `([^`]+)` ``,
return the captured group, else the value unchanged. -/
def sqlUnescape (value : String) : String :=
  match findBacktickGroup value.data with
  | some run => ⟨run⟩
  | none => value

/-- `isReservedTable` from the source: `!!tableName.match(/^sqlite_/)`. -/
def isReservedTable (tableName : String) : Bool :=
  "sqlite_".data.isPrefixOf tableName.data

/-! ## Compiler: Document → Statement sequence (`importJsonToDb`) -/

/-- Default maximum number of rows batched into one INSERT statement
(`DEFAULT_BATCH_INSERT_SIZE` in the source). -/
def DEFAULT_BATCH_INSERT_SIZE : Nat := 250

/-- Resolution of `opts.batchInsertSize ? opts.batchInsertSize :
DEFAULT_BATCH_INSERT_SIZE` — an absent or zero (JS-falsy) option falls back
to the default. -/
def effectiveBatchInsertSize : Option Nat → Nat
  | none => DEFAULT_BATCH_INSERT_SIZE
  | some 0 => DEFAULT_BATCH_INSERT_SIZE
  | some b => b

/-- One insert row: ordered field name / scalar pairs (JS object key
iteration order). -/
abbrev Row := List (String × JVal)

/-- One value of the first row of a batch: ` NULL AS 'col'` when the
sanitised value is JS `null` or spells `null` case-insensitively, else
` 'value' AS 'col'` (lines 433-442 of the source). -/
def valAs (f : String) : Option String → String
  | none => " NULL AS '" ++ f ++ "'"
  | some s =>
    if toLowerAscii s = "null" then " NULL AS '" ++ f ++ "'"
    else " '" ++ s ++ "' AS '" ++ f ++ "'"

/-- The `SELECT`-projection of the first row of a batch, comma-separated. -/
def selectClause : List (String × Option String) → String
  | [] => ""
  | [(f, v)] => valAs f v
  | (f, v) :: rest => valAs f v ++ "," ++ selectClause rest

/-- One value of a subsequent batch row: ` NULL` or ` 'value'` under the
same null test (lines 445-453 of the source). -/
def unionVal : Option String → String
  | none => " NULL"
  | some s => if toLowerAscii s = "null" then " NULL" else " '" ++ s ++ "'"

/-- The values of a `UNION SELECT` row, comma-separated. -/
def unionClause : List (Option String) → String
  | [] => ""
  | [v] => unionVal v
  | v :: rest => unionVal v ++ "," ++ unionClause rest

/-- The comma-separated field list of the INSERT header (lines 425-431). -/
def fieldsClause : List String → String
  | [] => ""
  | [f] => f
  | f :: rest => f ++ ", " ++ fieldsClause rest

/-- Text appended for the first row of a batch: the INSERT header plus the
`SELECT … AS …` projection. -/
def insertRowFirst (tbl : String) (row : Row) : String :=
  let fields := row.map (·.1)
  let values := row.map (fun p => sanitiseForSql p.2)
  "INSERT OR REPLACE INTO " ++ sqlEscape tbl ++ "(" ++ fieldsClause fields
    ++ ") SELECT" ++ selectClause (fields.zip values)

/-- Text appended for a subsequent row of a batch. -/
def insertRowUnion (row : Row) : String :=
  " UNION SELECT " ++ unionClause (row.map (fun p => sanitiseForSql p.2))

/-- The per-table insert loop (lines 408-458): `cur` is the statement being
built, `count` the running `_count`.  When `count` reaches the batch size
the current statement is closed (the source appends the separator) and a
fresh INSERT is started; at `count = 0` the INSERT header is appended; any
other row appends a `UNION SELECT`.  The trailing separator after the loop
closes the final statement. -/
def insertLoop (tbl : String) (B : Nat) : List Row → String → Nat → List String
  | [], cur, _ => [cur]
  | r :: rs, cur, count =>
    if count = B then
      cur :: insertLoop tbl B rs (insertRowFirst tbl r) 1
    else if count = 0 then
      insertLoop tbl B rs (cur ++ insertRowFirst tbl r) 1
    else
      insertLoop tbl B rs (cur ++ insertRowUnion r) (count + 1)

/-- All statements compiled for one table of `data.inserts`. -/
def compileTableInserts (tbl : String) (B : Nat) (rows : List Row) : List String :=
  insertLoop tbl B rows "" 0

/-- The test `command.match(/CREATE INDEX/i)` (line 396). -/
def isCreateIndexCmd (c : String) : Bool :=
  containsSub (toLowerAscii c) "create index"

/-- Routing of `structure.otherSQL` (lines 393-402): entries matching the
index-creation pattern go to the deferred (`createIndexSql`) group, the
rest to the main group, each group keeping the entries' relative order. -/
def routeOtherSQL : List String → List String × List String
  | [] => ([], [])
  | c :: cs =>
    let (m, d) := routeOtherSQL cs
    if isCreateIndexCmd c then (m, c :: d) else (c :: m, d)

/-- Tail of a SET/WHERE clause: every further column joined by `joiner`
(`" AND "` or `", "`). -/
def clauseRest (joiner : String) : Row → String
  | [] => ""
  | (c, v) :: rest =>
    joiner ++ c ++ "='" ++ jsStr (sanitiseForSql v) ++ "'" ++ clauseRest joiner rest

/-- A SET or WHERE clause (lines 467-471 / 484-494): the first column is
prefixed by `first` (`" WHERE "` or `" SET "`), the rest by `joiner`. -/
def clause (first joiner : String) : Row → String
  | [] => ""
  | (c, v) :: rest =>
    first ++ c ++ "='" ++ jsStr (sanitiseForSql v) ++ "'" ++ clauseRest joiner rest

/-- The `structure` section of a Document. -/
structure DocStructure where
  tables : List (String × String)
  otherSQL : Option (List String)
deriving DecidableEq, Repr

/-- One `data.updates` entry (`{set: …, where: …}`). -/
structure UpdateEntry where
  setF : Row
  whereF : Row
deriving DecidableEq, Repr

/-- The `data` section of a Document. -/
structure DocData where
  inserts : Option (List (String × List Row))
  deletes : Option (List (String × List Row))
  updates : Option (List (String × List UpdateEntry))
deriving DecidableEq, Repr

/-- A Document as accepted by `importJsonToDb`: both top-level keys may be
absent. -/
structure JsonDoc where
  struct : Option DocStructure
  data : Option DocData
deriving DecidableEq, Repr

/-- The compilation phase of `importJsonToDb` (lines 384-499): produce the
main statement sequence and the deferred index-creation sequence, or the
wrapped error raised while compiling.  Reading `json.data.inserts` when the
Document has no `data` key throws a `TypeError` in JS, which line 523
catches and prefixes (there is no guard on `json.data`, unlike
`json.structure`); per-table insert text is split at the separators the
source writes, and an empty final segment (a table with zero rows)
contributes no statement. -/
def importJsonCompile (doc : JsonDoc) (batchInsertSizeOpt : Option Nat) :
    Except String (List String × List String) :=
  let structPair : List String × List String :=
    match doc.struct with
    | none => ([], [])
    | some st =>
      let tblStmts := (st.tables.map (fun p =>
        ["DROP TABLE IF EXISTS " ++ sqlEscape p.1,
         "CREATE TABLE " ++ sqlEscape p.1 ++ p.2])).flatten
      match st.otherSQL with
      | none => (tblStmts, [])
      | some cmds =>
        let (m, d) := routeOtherSQL cmds
        (tblStmts ++ m, d)
  let B := effectiveBatchInsertSize batchInsertSizeOpt
  match doc.data with
  | none =>
    .error "Failed to parse JSON structure to SQL: TypeError: Cannot read properties of undefined (reading 'inserts')"
  | some d =>
    let ins := match d.inserts with
      | none => []
      | some ts => (ts.map (fun p =>
          (compileTableInserts p.1 B p.2).filter (fun s => !s.isEmpty))).flatten
    let del := match d.deletes with
      | none => []
      | some ts => (ts.map (fun p => p.2.map (fun row =>
          "DELETE FROM " ++ sqlEscape p.1 ++ clause " WHERE " " AND " row))).flatten
    let upd := match d.updates with
      | none => []
      | some ts => (ts.map (fun p => p.2.map (fun u =>
          "UPDATE " ++ sqlEscape p.1 ++ clause " SET " ", " u.setF
            ++ clause " WHERE " " AND " u.whereF))).flatten
    .ok (structPair.1 ++ ins ++ del ++ upd, structPair.2)

/-! ## Import pipeline (`importSqlToDb` / `applyStatements`) -/

/-- Observable events of one pipeline run: a progress callback invocation
`(currentCount, totalCount)`, the success callback `(totalCount)`, or the
error callback with the decorated message and the failing statement. -/
inductive PEvent where
  | progress (current total : Nat)
  | success (total : Nat)
  | failure (message statement : String)
deriving DecidableEq, Repr

/-- `applyStatements` (lines 90-107): statements are trimmed and submitted
strictly one at a time; after each success `currentCount` is incremented
and the progress callback fires; the first backend error stops the run and
reports `"Failed to import SQL; message=" + error.message` together with
the failing statement; an exhausted list reports success with the total
count.  Returns the list of submitted statement texts and the event
trace. -/
def runStatements (exec : String → Option String) :
    List String → Nat → Nat → List String × List PEvent
  | [], _, total => ([], [.success total])
  | s :: rest, current, total =>
    let stmt := trimS s
    match exec stmt with
    | none =>
      let (subs, evs) := runStatements exec rest (current + 1) total
      (stmt :: subs, .progress (current + 1) total :: evs)
    | some msg =>
      ([stmt], [.failure ("Failed to import SQL; message=" ++ msg) stmt])

/-- Number of leading statements whose trimmed text the backend accepts. -/
def leadingOk (exec : String → Option String) : List String → Nat
  | [] => 0
  | s :: rest =>
    match exec (trimS s) with
    | none => leadingOk exec rest + 1
    | some _ => 0

/-- The first rejected statement together with the backend's message. -/
def firstFailure (exec : String → Option String) :
    List String → Option (String × String)
  | [] => none
  | s :: rest =>
    match exec (trimS s) with
    | none => firstFailure exec rest
    | some msg => some (s, msg)

/-- The terminal event of a run: success with the total count, or the
decorated failure report. -/
def tailEventOf (exec : String → Option String) (stmts : List String)
    (total : Nat) : List PEvent :=
  match firstFailure exec stmts with
  | none => [.success total]
  | some (s, msg) =>
    [.failure ("Failed to import SQL; message=" ++ msg) (trimS s)]

/-- Shift of deferred-phase events by the main phase's total count
(lines 506-515): progress and success counts are offset, error reports are
passed through unchanged. -/
def offsetEvent (n : Nat) : PEvent → PEvent
  | .progress c t => .progress (n + c) (n + t)
  | .success t => .success (n + t)
  | .failure m s => .failure m s

/-- Two-phase execution of `importJsonToDb` (lines 501-521): with no
deferred statements, one plain run over the main sequence; otherwise the
main sequence runs with its success continuation replaced by a second run
over the deferred sequence whose progress/success counts are offset by the
main total.  Returns submitted statements and the event trace. -/
def importJsonRun (exec : String → Option String)
    (main deferred : List String) : List String × List PEvent :=
  if deferred = [] then runStatements exec main 0 main.length
  else
    let (subs1, evs1) := runStatements exec main 0 main.length
    if evs1.getLast? = some (.success main.length) then
      let (subs2, evs2) := runStatements exec deferred 0 deferred.length
      (subs1 ++ subs2, evs1.dropLast ++ evs2.map (offsetEvent main.length))
    else (subs1, evs1)

/-! ## Database-handle validation (`isValidDB`) -/

/-- The `db` argument: JS-falsy, an object without a `transaction`
function, or a valid handle. -/
inductive DBArg where
  | missing
  | noTransactionFn
  | valid
deriving DecidableEq, Repr

/-- Which callbacks the options object carries (`opts.onError` is the only
one `isValidDB` consults; `errorFn` is the error callback the rest of the
module uses). -/
structure ErrOpts where
  onError : Bool
  errorFn : Bool
deriving DecidableEq, Repr

/-- Outcome of `isValidDB`: proceed, report through `opts.onError`, or a
synchronous JS `throw` of the message to the caller. -/
inductive ValidationOutcome where
  | proceed
  | reportedOnError (msg : String)
  | thrown (msg : String)
deriving DecidableEq, Repr

/-- The validation error message of the source. -/
def validationMsg : String :=
  "'db' argument must provide a valid SQLite database instance"

/-- `isValidDB` (lines 690-701): an invalid handle is reported through
`opts.onError` when that callback exists, and otherwise the message is
thrown; a valid handle proceeds. -/
def isValidDB (db : DBArg) (opts : ErrOpts) : ValidationOutcome :=
  if db = .missing || db = .noTransactionFn then
    if opts.onError then .reportedOnError validationMsg
    else .thrown validationMsg
  else .proceed

/-- Result of invoking an operation: stopped by validation, or a pipeline
run. -/
inductive OpResult where
  | validationError (v : ValidationOutcome)
  | ran (submitted : List String) (events : List PEvent)
deriving DecidableEq, Repr

/-- `importSqlToDb`'s entry guard (line 70): the handle is validated before
any work; only a valid handle reaches the statement pipeline. -/
def importSqlOp (db : DBArg) (opts : ErrOpts) (exec : String → Option String)
    (stmts : List String) : OpResult :=
  match isValidDB db opts with
  | .proceed =>
    let (subs, evs) := runStatements exec stmts 0 stmts.length
    .ran subs evs
  | v => .validationError v

/-! ## Tokenizer (`statementRegEx` and the `match` loop of `importSqlToDb`)

The statement regex is
`(?!\s|;|$)(?:[^;"']*(?:"(?:\\.|[^\\"])*"|'(?:\\.|[^\\'])*')?)*` with the
global flag.  Its behaviour is deterministic: a quoted literal consumes
either a backslash escape or a plain character until its closing quote; the
statement body alternates runs of non-stop characters with complete quoted
literals and ends before a semicolon, before an unterminated quote, or at
the end of input; the lookahead forbids a match from starting on
whitespace, on a semicolon, or at the end.  `String.prototype.match` with
the global flag collects successive matches, advancing one character past
a position with no match or with an empty match. -/

/-- Scan one quoted literal body after its opening quote `q`:
`(?:\\.|[^\\q])*q`.  Returns the consumed characters (closing quote
included) and the remainder, or `none` for an unterminated literal. -/
def scanQuoted (q : Char) : List Char → Option (List Char × List Char)
  | [] => none
  | c :: cs =>
    if c = q then some ([c], cs)
    else if c = '\\' then
      match cs with
      | [] => none
      | d :: ds =>
        if jsDot d then
          match scanQuoted q ds with
          | some (t, r) => some (c :: d :: t, r)
          | none => none
        else none
    else
      match scanQuoted q cs with
      | some (t, r) => some (c :: t, r)
      | none => none

/-- Fuelled scan of one statement match body
`(?:[^;"']*(?:"…"|'…')?)*`: consume until a semicolon, an unterminated
quote, or the end of input.  The fuel only needs to cover the input
length.  Returns the match and the remainder. -/
def scanStatementF : Nat → List Char → List Char × List Char
  | 0, cs => ([], cs)
  | _ + 1, [] => ([], [])
  | fuel + 1, c :: cs =>
    if c = ';' then ([], c :: cs)
    else if c = '"' ∨ c = '\'' then
      match scanQuoted c cs with
      | some (t, r) =>
        let p := scanStatementF fuel r
        (c :: (t ++ p.1), p.2)
      | none => ([], c :: cs)
    else
      let p := scanStatementF fuel cs
      (c :: p.1, p.2)

/-- One statement match starting at the head of `cs` (fuel instantiated
with the input length, which always suffices). -/
def scanStatement (cs : List Char) : List Char × List Char :=
  scanStatementF cs.length cs

/-- Fuelled model of `sql.match(statementRegEx)`: skip a character that
fails the lookahead (whitespace or semicolon), record an empty match (and
advance one character) where the body matches nothing, otherwise record
the match and continue after it. -/
def tokenizeAuxF : Nat → List Char → List (List Char)
  | 0, _ => []
  | _ + 1, [] => []
  | fuel + 1, c :: cs =>
    if jsWs c ∨ c = ';' then tokenizeAuxF fuel cs
    else
      let p := scanStatement (c :: cs)
      if p.1 = [] then [] :: tokenizeAuxF fuel cs
      else p.1 :: tokenizeAuxF fuel p.2

/-- The Tokenizer: the list of raw regex matches of the statement-splitting
stage of `importSqlToDb` (line 76-77, after comment removal). -/
def tokenize (cs : List Char) : List (List Char) :=
  tokenizeAuxF cs.length cs

/-- Modelled from the spec: the segments of the text between consecutive
semicolons that lie outside any string literal (string literals given by
the same grammar as `statementRegEx`).  This is the reference splitter the
tokenizer is compared against; on a malformed (unterminated) literal the
remainder is one segment. -/
def splitTopF : Nat → List Char → List (List Char)
  | 0, _ => [[]]
  | _ + 1, [] => [[]]
  | fuel + 1, c :: cs =>
    if c = ';' then [] :: splitTopF fuel cs
    else if c = '"' ∨ c = '\'' then
      match scanQuoted c cs with
      | some (t, r) =>
        match splitTopF fuel r with
        | [] => [c :: t]
        | seg :: rest => (c :: (t ++ seg)) :: rest
      | none => [c :: cs]
    else
      match splitTopF fuel cs with
      | [] => [[c]]
      | seg :: rest => (c :: seg) :: rest

/-- Wrapper of `splitTopF` with sufficient fuel. -/
def splitTop (cs : List Char) : List (List Char) :=
  splitTopF cs.length cs

/-- The number of statement-terminating semicolons outside any string
literal: one less than the number of segments they cut the text into. -/
def topSemiCount (cs : List Char) : Nat :=
  (splitTop cs).length - 1

/-- Every quote occurring outside a string literal opens a terminated
literal (the inputs on which the regex tokenizer is well behaved). -/
def wellFormedTopF : Nat → List Char → Bool
  | 0, cs => cs.isEmpty
  | _ + 1, [] => true
  | fuel + 1, c :: cs =>
    if c = '"' ∨ c = '\'' then
      match scanQuoted c cs with
      | some p => wellFormedTopF fuel p.2
      | none => false
    else wellFormedTopF fuel cs

/-- Wrapper of `wellFormedTopF` with sufficient fuel. -/
def wellFormedTop (cs : List Char) : Bool :=
  wellFormedTopF cs.length cs

/-! ## Export walker (`exportDbToSql` / `exportDbToJson`) -/

/-- Extraction of a table name from a catalog `CREATE TABLE` row
(line 193):
`sqlUnescape(trimWhitespace(trimWhitespace(sql.replace("CREATE TABLE", "")).split(/ |\(/)[0]))`. -/
def extractTableName (sql : String) : String :=
  sqlUnescape
    ⟨trimChars (((trimS (replaceFirstStr sql "CREATE TABLE" "")).data).takeWhile
      (fun c => !(c = ' ' || c = '(')))⟩

/-- One catalog row of the SQL-export structure phase (lines 187-203):
rows whose text is null or contains `__` are skipped; a `CREATE TABLE` row
for a reserved table contributes nothing; any other `CREATE TABLE` row
contributes a `DROP TABLE IF EXISTS` plus the literal row; a non-table row
is passed through.  Returns the contributed statements and the names a
DROP was generated for. -/
def exportSqlStructureStep (sql? : Option String) : List String × List String :=
  match sql? with
  | none => ([], [])
  | some sql =>
    if containsSub sql "__" then ([], [])
    else if containsSub sql "CREATE TABLE" then
      let name := extractTableName sql
      if isReservedTable name then ([], [])
      else (["DROP TABLE IF EXISTS " ++ sqlEscape name, sql], [name])
    else ([sql], [])

/-- The SQL-export structure phase over the whole catalog. -/
def exportSqlStructure : List (Option String) → List String × List String
  | [] => ([], [])
  | r :: rs =>
    let (s1, n1) := exportSqlStructureStep r
    let (s2, n2) := exportSqlStructure rs
    (s1 ++ s2, n1 ++ n2)

/-- The filter building `tables.sqlTables` for the SQL export
(lines 218-222): catalog table names without `__` that are not reserved.
The reserved check here runs on the raw catalog name, before any
unescaping. -/
def exportSqlDataTables (names : List String) : List String :=
  names.filter (fun n => !containsSub n "__" && !isReservedTable n)

/-- The table names the SQL-export data phase actually walks and INSERTs
into: each filtered catalog name is unescaped at walk time
(`sqlUnescape(tables.sqlTables[tables.n])`, line 150) and, unlike the JSON
export (line 264), no further reserved check is applied after
unescaping. -/
def exportSqlWalkedTables (names : List String) : List String :=
  (exportSqlDataTables names).map sqlUnescape

/-- The keys created under `structure.tables` by the JSON export
(lines 301-319): `CREATE TABLE` rows without `__` whose extracted name is
not reserved. -/
def exportJsonStructureKeys : List (Option String) → List String
  | [] => []
  | r :: rs =>
    (match r with
     | none => []
     | some sql =>
       if containsSub sql "__" then []
       else if containsSub sql "CREATE TABLE" then
         let name := extractTableName sql
         if isReservedTable name then [] else [name]
       else []) ++ exportJsonStructureKeys rs

/-- The keys created under `data.inserts` by the JSON export: the catalog
table list is filtered for `__` (line 335), each name is unescaped
(line 260), and an entry is created only when the table is not reserved
(line 264). -/
def exportJsonInsertKeys (names : List String) : List String :=
  ((names.filter (fun n => !containsSub n "__")).map sqlUnescape).filter
    (fun n => !isReservedTable n)

/-! ## Auxiliary definitions used by the verification statements -/

/-- The header every batch statement starts with. -/
def insPrefix : List Char := "INSERT OR REPLACE INTO ".data

/-- Number of INSERT statements in a compiled statement list. -/
def countInsertStmts (l : List String) : Nat :=
  (l.filter (fun s => insPrefix.isPrefixOf s.data)).length

/-- A scalar whose sanitised form is JS `null` or spells `null`
case-insensitively — exactly the values the insert compiler emits as the
SQL keyword `NULL`. -/
def isNullish (v : JVal) : Bool :=
  match sanitiseForSql v with
  | none => true
  | some s => toLowerAscii s = "null"

/-- Two scalars that compile identically in an insert row: equal, or both
nullish. -/
def valEquiv (v w : JVal) : Bool :=
  v == w || (isNullish v && isNullish w)

/-- Two insert rows with the same fields in the same order whose values are
pairwise `valEquiv`. -/
def rowEquiv : Row → Row → Bool
  | [], [] => true
  | (f, v) :: r1, (g, w) :: r2 => f == g && valEquiv v w && rowEquiv r1 r2
  | _, _ => false

/-- Pointwise `rowEquiv` on row lists. -/
def rowsEquiv : List Row → List Row → Bool
  | [], [] => true
  | r1 :: l1, r2 :: l2 => rowEquiv r1 r2 && rowsEquiv l1 l2
  | _, _ => false

/-- A Document containing a single table of inserts and nothing else. -/
def singleInsertDoc (tbl : String) (rows : List Row) : JsonDoc :=
  ⟨none, some ⟨some [(tbl, rows)], none, none⟩⟩

/-- A concrete backend oracle that rejects the statement `BAD` with message
`boom` and accepts everything else. -/
def execBoom : String → Option String :=
  fun s => if s = "BAD" then some "boom" else none

/-! ## Lemmas about the escaper -/

theorem string_data_append (s t : String) : (s ++ t).data = s.data ++ t.data :=
  String.data_append s t

theorem findBacktickGroup_of_no_backtick (l : List Char)
    (h : ∀ c ∈ l, c ≠ backtick) : findBacktickGroup l = none := by
  induction l with
  | nil => rfl
  | cons c cs ih =>
    have hc : c ≠ backtick := h c (by simp)
    simp only [findBacktickGroup, if_neg hc]
    exact ih (fun d hd => h d (by simp [hd]))

theorem takeWhile_append_stop {p : Char → Bool} (x : List Char) (b : Char)
    (ys : List Char) (hx : ∀ c ∈ x, p c = true) (hb : p b = false) :
    (x ++ b :: ys).takeWhile p = x := by
  induction x with
  | nil => simp [List.takeWhile_cons, hb]
  | cons c cs ih =>
    have hc : p c = true := hx c (by simp)
    simp only [List.cons_append, List.takeWhile_cons, hc, if_true]
    simp [ih (fun d hd => hx d (by simp [hd]))]

theorem findBacktickGroup_wrapped (x : List Char) (hne : x ≠ [])
    (h : ∀ c ∈ x, c ≠ backtick) :
    findBacktickGroup (backtick :: (x ++ [backtick])) = some x := by
  have hp : ∀ c ∈ x, (c != backtick) = true := by
    intro c hc
    simpa using h c hc
  have htw : (x ++ [backtick]).takeWhile (fun d => d != backtick) = x := by
    have : (x ++ backtick :: []).takeWhile (fun d => d != backtick) = x :=
      takeWhile_append_stop x backtick [] hp (by simp)
    simpa using this
  have hdrop : (x ++ [backtick]).drop x.length = [backtick] :=
    List.drop_left x [backtick]
  simp only [findBacktickGroup, if_pos rfl, htw, hdrop]
  simp [List.isEmpty_iff, hne]

/-- C6 — for every valid identifier (one not containing the delimiter
character, a backtick), `sqlUnescape` undoes `sqlEscape`; moreover
`sqlEscape` wraps the identifier in backticks exactly when it contains a
character requiring delimiting (an underscore or hyphen) and otherwise
returns it unchanged. -/
theorem c6_escape_inverse (x : String) (h : ∀ c ∈ x.data, c ≠ backtick) :
    sqlUnescape (sqlEscape x) = x ∧
    (needsSqlEscape x = false → sqlEscape x = x) ∧
    (needsSqlEscape x = true → sqlEscape x = "`" ++ x ++ "`") := by
  refine ⟨?_, ?_, ?_⟩
  · by_cases hn : needsSqlEscape x
    · have hesc : sqlEscape x = "`" ++ x ++ "`" := by simp [sqlEscape, hn]
      have hb : ("`" : String).data = [backtick] := by decide
      have hdata : ("`" ++ x ++ "`").data = backtick :: (x.data ++ [backtick]) := by
        rw [string_data_append, string_data_append, hb]
        simp
      have hne : x.data ≠ [] := by
        intro hempty
        rw [needsSqlEscape, hempty] at hn
        simp at hn
      rw [hesc]
      unfold sqlUnescape
      rw [hdata, findBacktickGroup_wrapped x.data hne h]
    · have hesc : sqlEscape x = x := by simp [sqlEscape, hn]
      rw [hesc]
      unfold sqlUnescape
      rw [findBacktickGroup_of_no_backtick x.data h]
  · intro hn; simp [sqlEscape, hn]
  · intro hn; simp [sqlEscape, hn]

/-- Witness for C6 at the identifier `my_table`. -/
theorem c6_escape_inverse_witness :
    sqlUnescape (sqlEscape "my_table") = "my_table" :=
  (c6_escape_inverse "my_table" (by decide)).1

/-! ## Lemmas about insert batching -/

theorem isPrefixOf_append_right (p a b : List Char)
    (h : p.isPrefixOf a = true) : p.isPrefixOf (a ++ b) = true := by
  rw [List.isPrefixOf_iff_prefix] at h ⊢
  exact h.trans (List.prefix_append a b)

theorem insPrefix_insertRowFirst (tbl : String) (r : Row) :
    insPrefix.isPrefixOf (insertRowFirst tbl r).data = true := by
  rw [List.isPrefixOf_iff_prefix]
  unfold insertRowFirst insPrefix
  simp only [string_data_append, List.append_assoc]
  exact List.prefix_append _ _

theorem insPrefix_string_append (a b : String)
    (h : insPrefix.isPrefixOf a.data = true) :
    insPrefix.isPrefixOf (a ++ b).data = true := by
  rw [string_data_append]
  exact isPrefixOf_append_right insPrefix a.data b.data h

theorem countInsertStmts_cons (s : String) (l : List String) :
    countInsertStmts (s :: l) =
      (if insPrefix.isPrefixOf s.data then 1 else 0) + countInsertStmts l := by
  simp only [countInsertStmts, List.filter_cons]
  split
  · simp [Nat.add_comm]
  · simp

theorem insertLoop_count (tbl : String) (B : Nat) :
    ∀ (rows : List Row) (cur : String) (count : Nat),
      1 ≤ count → count ≤ B → insPrefix.isPrefixOf cur.data = true →
      countInsertStmts (insertLoop tbl B rows cur count) =
        1 + (rows.length + count - 1) / B := by
  intro rows
  induction rows with
  | nil =>
    intro cur count h1 h2 hpre
    have hlt : count - 1 < B := by omega
    simp only [insertLoop, countInsertStmts, List.filter_cons, hpre, if_true,
      List.filter_nil, List.length_cons, List.length_nil, List.length_nil]
    have : (0 : Nat) + count - 1 = count - 1 := by omega
    rw [this, Nat.div_eq_of_lt hlt]
  | cons r rs ih =>
    intro cur count h1 h2 hpre
    by_cases hc : count = B
    · rw [insertLoop, if_pos hc, countInsertStmts_cons, if_pos hpre]
      rw [ih (insertRowFirst tbl r) 1 (by omega) (by omega)
        (insPrefix_insertRowFirst tbl r)]
      have hB : 0 < B := by omega
      have harg1 : rs.length + 1 - 1 = rs.length := by omega
      have harg2 : (r :: rs).length + count - 1 = rs.length + B := by
        simp only [List.length_cons]; omega
      rw [harg1, harg2, Nat.add_div_right _ hB]
      omega
    · have hne0 : ¬ count = 0 := by omega
      rw [insertLoop, if_neg hc, if_neg hne0]
      rw [ih (cur ++ insertRowUnion r) (count + 1) (by omega) (by omega)
        (insPrefix_string_append cur (insertRowUnion r) hpre)]
      have harg : rs.length + (count + 1) - 1 = (r :: rs).length + count - 1 := by
        simp only [List.length_cons]; omega
      rw [harg]

theorem compileTableInserts_count (tbl : String) (B : Nat) (hB : 1 ≤ B)
    (rows : List Row) :
    countInsertStmts (compileTableInserts tbl B rows) =
      (rows.length + B - 1) / B := by
  cases rows with
  | nil =>
    have hempty : insPrefix.isPrefixOf ("" : String).data = false := by decide
    have hlt : 0 + B - 1 < B := by omega
    simp only [compileTableInserts, insertLoop, countInsertStmts,
      List.filter_cons, hempty, List.filter_nil, List.length_nil,
      List.length_nil, Bool.false_eq_true, if_false]
    rw [Nat.div_eq_of_lt hlt]
  | cons r rs =>
    have h0B : ¬ (0 : Nat) = B := by omega
    rw [compileTableInserts, insertLoop, if_neg h0B, if_pos rfl]
    have hpre : insPrefix.isPrefixOf (("" : String) ++ insertRowFirst tbl r).data = true := by
      rw [string_data_append]
      have : ("" : String).data = [] := rfl
      rw [this, List.nil_append]
      exact insPrefix_insertRowFirst tbl r
    rw [insertLoop_count tbl B rs _ 1 (by omega) (by omega) hpre]
    have hB0 : 0 < B := by omega
    have h1 : rs.length + 1 - 1 = rs.length := by omega
    have h2 : (r :: rs).length + B - 1 = rs.length + B := by
      simp only [List.length_cons]; omega
    rw [h1, h2, Nat.add_div_right _ hB0]
    omega

/-- C1 — compiling N insert rows for one table with batch size B ≥ 1 yields
exactly ceil(N/B) INSERT statements; B = 1 yields one INSERT statement per
row; an unspecified batchInsertSize resolves to the default 250. -/
theorem c1_batch_count_law (tbl : String) (rows : List Row) (B : Nat)
    (hB : 1 ≤ B) :
    countInsertStmts (compileTableInserts tbl B rows) = (rows.length + B - 1) / B ∧
    countInsertStmts (compileTableInserts tbl 1 rows) = rows.length ∧
    effectiveBatchInsertSize none = 250 := by
  refine ⟨compileTableInserts_count tbl B hB rows, ?_, rfl⟩
  rw [compileTableInserts_count tbl 1 (by omega) rows]
  simp

/-- Witness for C1: three rows with batch size 2 compile to ceil(3/2) = 2
INSERT statements. -/
theorem c1_batch_count_law_witness :
    countInsertStmts (compileTableInserts "t" 2
      [[("a", JVal.i 1)], [("a", JVal.i 2)], [("a", JVal.i 3)]]) = 2 ∧
    countInsertStmts (compileTableInserts "t" 1
      [[("a", JVal.i 1)], [("a", JVal.i 2)], [("a", JVal.i 3)]]) = 3 := by
  have h := c1_batch_count_law "t"
    [[("a", JVal.i 1)], [("a", JVal.i 2)], [("a", JVal.i 3)]] 2 (by omega)
  exact ⟨h.1, h.2.1⟩

/-! ## Validation (`isValidDB`) -/

/-- C8 counterexample — invoking an operation with a missing database
handle and an options object that supplies the documented error callback
(`errorFn`) but no `onError` ends in a synchronous JS `throw` to the
caller: the validation error is neither delivered to the supplied error
callback nor routed to a default diagnostic channel, contradicting the
claim. -/
theorem c8_counterexample :
    importSqlOp DBArg.missing ⟨false, true⟩ execBoom ["A"] =
      OpResult.validationError (ValidationOutcome.thrown validationMsg) := by
  rfl

/-- C8 amended — an invalid or missing handle is rejected synchronously
before any statement is submitted; the error is reported through
`opts.onError` when that (undocumented) callback exists and is otherwise
thrown to the caller; the documented `errorFn` callback is never consulted
for validation errors. -/
theorem c8_validation_amended (db : DBArg) (opts : ErrOpts)
    (exec : String → Option String) (stmts : List String)
    (h : db ≠ DBArg.valid) :
    importSqlOp db opts exec stmts =
      OpResult.validationError
        (if opts.onError then ValidationOutcome.reportedOnError validationMsg
         else ValidationOutcome.thrown validationMsg) := by
  cases db with
  | missing => cases hOn : opts.onError <;> simp [importSqlOp, isValidDB, hOn]
  | noTransactionFn => cases hOn : opts.onError <;> simp [importSqlOp, isValidDB, hOn]
  | valid => exact absurd rfl h

/-- Witness for C8 amended at a concrete invalid handle. -/
theorem c8_validation_amended_witness :
    importSqlOp DBArg.noTransactionFn ⟨true, false⟩ execBoom ["A"] =
      OpResult.validationError (ValidationOutcome.reportedOnError validationMsg) := by
  have h := c8_validation_amended DBArg.noTransactionFn ⟨true, false⟩ execBoom ["A"]
    (by decide)
  simpa using h

/-! ## Lemmas about the pipeline -/

theorem runStatements_eq (exec : String → Option String) :
    ∀ (stmts : List String) (cur tot : Nat),
      runStatements exec stmts cur tot =
        ((stmts.take (min (leadingOk exec stmts + 1) stmts.length)).map trimS,
         (List.range (leadingOk exec stmts)).map
            (fun i => PEvent.progress (cur + i + 1) tot)
           ++ tailEventOf exec stmts tot) := by
  intro stmts
  induction stmts with
  | nil =>
    intro cur tot
    simp [runStatements, leadingOk, tailEventOf, firstFailure]
  | cons s rest ih =>
    intro cur tot
    cases h : exec (trimS s) with
    | none =>
      have hlk : leadingOk exec (s :: rest) = leadingOk exec rest + 1 := by
        simp [leadingOk, h]
      have hff : tailEventOf exec (s :: rest) tot = tailEventOf exec rest tot := by
        simp [tailEventOf, firstFailure, h]
      simp only [runStatements, h]
      rw [ih (cur + 1) tot, hlk, hff]
      refine Prod.ext ?_ ?_
      · simp only [List.length_cons, Nat.succ_min_succ, List.take_succ_cons,
          List.map_cons]
      · simp only [List.range_succ_eq_map, List.map_cons, List.map_map,
          Nat.add_zero, List.cons_append]
        congr 2
        apply List.map_congr_left
        intro i _
        simp only [Function.comp_apply]
        congr 1
        omega
    | some msg =>
      have hlk : leadingOk exec (s :: rest) = 0 := by
        simp [leadingOk, h]
      have hff : tailEventOf exec (s :: rest) tot =
          [PEvent.failure ("Failed to import SQL; message=" ++ msg) (trimS s)] := by
        simp [tailEventOf, firstFailure, h]
      simp only [runStatements, h, hlk, hff]
      simp [List.take_succ_cons]

theorem firstFailure_exec (exec : String → Option String) :
    ∀ (stmts : List String) (s0 msg : String),
      firstFailure exec stmts = some (s0, msg) → exec (trimS s0) = some msg := by
  intro stmts
  induction stmts with
  | nil => intro s0 msg h; simp [firstFailure] at h
  | cons s rest ih =>
    intro s0 msg h
    cases hx : exec (trimS s) with
    | none =>
      rw [firstFailure, hx] at h
      exact ih s0 msg h
    | some m2 =>
      rw [firstFailure, hx] at h
      simp only [Option.some.injEq, Prod.mk.injEq] at h
      obtain ⟨h1, h2⟩ := h
      subst h1
      subst h2
      exact hx

theorem leadingOk_eq_length_iff (exec : String → Option String) :
    ∀ stmts : List String,
      (leadingOk exec stmts = stmts.length ↔ firstFailure exec stmts = none) := by
  intro stmts
  induction stmts with
  | nil => simp [leadingOk, firstFailure]
  | cons s rest ih =>
    cases hx : exec (trimS s) with
    | none =>
      simp only [leadingOk, firstFailure, hx, List.length_cons]
      constructor
      · intro h; exact ih.mp (by omega)
      · intro h; have := ih.mpr h; omega
    | some m2 =>
      simp only [leadingOk, firstFailure, hx, List.length_cons]
      constructor
      · intro h; omega
      · intro h; exact absurd h (by simp)

/-- C3 — the pipeline executes an ordered statement sequence strictly one
at a time: the submitted statements are exactly the trimmed leading run of
backend-accepted statements plus (at most) the single first-failing one, a
progress event `(i+1, totalCount)` fires after each of the
`leadingOk`-many successes, and the trace ends either in the success event
with the total count or, on the first failure, in a single error event
carrying the decorated backend message and the failing statement text,
with no remaining statement attempted. -/
theorem c3_pipeline_sequential (exec : String → Option String)
    (stmts : List String) :
    runStatements exec stmts 0 stmts.length =
      ((stmts.take (min (leadingOk exec stmts + 1) stmts.length)).map trimS,
       (List.range (leadingOk exec stmts)).map
          (fun i => PEvent.progress (i + 1) stmts.length)
         ++ tailEventOf exec stmts stmts.length) := by
  rw [runStatements_eq exec stmts 0 stmts.length]
  simp only [Nat.zero_add]

/-- C9 counterexample — two runs in which 0 respectively 2 statements
succeeded before the failure produce the very same error report
(message and failing statement only): the report cannot include how many
statements succeeded, contradicting the claim. -/
theorem c9_counterexample :
    (runStatements execBoom ["BAD"] 0 1).2 =
      [PEvent.failure "Failed to import SQL; message=boom" "BAD"] ∧
    (runStatements execBoom ["A", "B", "BAD"] 0 3).2 =
      [PEvent.progress 1 3, PEvent.progress 2 3,
       PEvent.failure "Failed to import SQL; message=boom" "BAD"] := by
  exact ⟨by decide, by decide⟩

/-- C9 amended — the error reported on a backend failure carries the
failing statement text together with the backend's message behind the
fixed prefix, and nothing else: it is entirely independent of the running
and total counts (the same failure event occurs under any `cur`/`tot`),
so the number of previously succeeded statements is observable only
through the earlier progress events, not through the error report. -/
theorem c9_execution_error_amended (exec : String → Option String)
    (stmts : List String) (cur cur' tot tot' : Nat) (m st : String)
    (h : PEvent.failure m st ∈ (runStatements exec stmts cur tot).2) :
    (∃ msg, exec st = some msg ∧
      m = "Failed to import SQL; message=" ++ msg) ∧
    PEvent.failure m st ∈ (runStatements exec stmts cur' tot').2 := by
  rw [runStatements_eq exec stmts cur tot] at h
  simp only [List.mem_append, List.mem_map, List.mem_range] at h
  rcases h with ⟨i, _, hev⟩ | h
  · exact absurd hev (by simp)
  · cases hff : firstFailure exec stmts with
    | none =>
      rw [tailEventOf, hff] at h
      simp at h
    | some p =>
      obtain ⟨s0, msg⟩ := p
      rw [tailEventOf, hff] at h
      simp only [List.mem_singleton, PEvent.failure.injEq] at h
      obtain ⟨hm, hs⟩ := h
      constructor
      · exact ⟨msg, by rw [hs]; exact firstFailure_exec exec stmts s0 msg hff, hm⟩
      · rw [runStatements_eq exec stmts cur' tot']
        simp only [List.mem_append]
        right
        rw [tailEventOf, hff]
        simp [hm, hs]

/-- Witness for C9 amended: the failure event of a concrete run, reused at
shifted counts. -/
theorem c9_execution_error_amended_witness :
    (∃ msg, execBoom "BAD" = some msg ∧
      ("Failed to import SQL; message=boom" : String) =
        "Failed to import SQL; message=" ++ msg) ∧
    PEvent.failure "Failed to import SQL; message=boom" "BAD" ∈
      (runStatements execBoom ["A", "BAD"] 5 9).2 :=
  c9_execution_error_amended execBoom ["A", "BAD"] 0 5 2 9
    "Failed to import SQL; message=boom" "BAD" (by decide)

theorem routeOtherSQL_eq_filter (cmds : List String) :
    routeOtherSQL cmds =
      (cmds.filter (fun c => !isCreateIndexCmd c),
       cmds.filter (fun c => isCreateIndexCmd c)) := by
  induction cmds with
  | nil => rfl
  | cons c cs ih =>
    simp only [routeOtherSQL, ih, List.filter_cons]
    by_cases h : isCreateIndexCmd c <;> simp [h]

theorem importJsonRun_main_fails (exec : String → Option String)
    (main deferred : List String)
    (h : leadingOk exec main < main.length) :
    importJsonRun exec main deferred = runStatements exec main 0 main.length := by
  by_cases hd : deferred = []
  · simp [importJsonRun, hd]
  · have hne : firstFailure exec main ≠ none := by
      intro hnone
      have := (leadingOk_eq_length_iff exec main).mpr hnone
      omega
    obtain ⟨⟨s0, msg⟩, hff⟩ : ∃ p, firstFailure exec main = some p := by
      cases hx : firstFailure exec main with
      | none => exact absurd hx hne
      | some p => exact ⟨p, rfl⟩
    have hlast : ((runStatements exec main 0 main.length).2).getLast? =
        some (PEvent.failure ("Failed to import SQL; message=" ++ msg) (trimS s0)) := by
      rw [runStatements_eq exec main 0 main.length]
      simp only
      rw [tailEventOf, hff]
      exact List.getLast?_concat _
    rw [importJsonRun, if_neg hd]
    cases hrun : runStatements exec main 0 main.length with
    | mk subs1 evs1 =>
      rw [hrun] at hlast
      simp only at hlast
      simp only [hrun, hlast]
      simp

theorem importJsonRun_main_succeeds (exec : String → Option String)
    (main deferred : List String) (hd : deferred ≠ [])
    (h : leadingOk exec main = main.length) :
    importJsonRun exec main deferred =
      (main.map trimS ++ (runStatements exec deferred 0 deferred.length).1,
       (List.range main.length).map
          (fun i => PEvent.progress (i + 1) main.length)
         ++ ((runStatements exec deferred 0 deferred.length).2).map
              (offsetEvent main.length)) := by
  have hff : firstFailure exec main = none := (leadingOk_eq_length_iff exec main).mp h
  have hmain : runStatements exec main 0 main.length =
      (main.map trimS,
       (List.range main.length).map (fun i => PEvent.progress (i + 1) main.length)
         ++ [PEvent.success main.length]) := by
    rw [runStatements_eq exec main 0 main.length]
    rw [tailEventOf, hff, h]
    have hmin : min (main.length + 1) main.length = main.length :=
      Nat.min_eq_right (Nat.le_succ main.length)
    rw [hmin, List.take_length]
    simp only [Nat.zero_add]
  rw [importJsonRun, if_neg hd, hmain]
  cases hdef : runStatements exec deferred 0 deferred.length with
  | mk subs2 evs2 =>
    simp only [List.getLast?_concat, if_pos rfl, List.dropLast_concat]
    simp

/-- C4 — (i) `structure.otherSQL` entries matching the index-creation
pattern are routed to the deferred group and all others to the main group,
each preserving relative order; (ii) when the main run fails before its
end, the two-phase run is exactly the main run: no deferred statement is
submitted and no deferred event occurs; (iii) when the main run succeeds
in its entirety, the deferred phase follows it and its progress/success
counts are offset by the main total, so the caller sees one additive
stream. -/
theorem c4_deferred_routing :
    (∀ cmds : List String,
      routeOtherSQL cmds =
        (cmds.filter (fun c => !isCreateIndexCmd c),
         cmds.filter (fun c => isCreateIndexCmd c))) ∧
    (∀ (exec : String → Option String) (main deferred : List String),
      leadingOk exec main < main.length →
      importJsonRun exec main deferred = runStatements exec main 0 main.length) ∧
    (∀ (exec : String → Option String) (main deferred : List String),
      deferred ≠ [] → leadingOk exec main = main.length →
      importJsonRun exec main deferred =
        (main.map trimS ++ (runStatements exec deferred 0 deferred.length).1,
         (List.range main.length).map
            (fun i => PEvent.progress (i + 1) main.length)
           ++ ((runStatements exec deferred 0 deferred.length).2).map
                (offsetEvent main.length))) :=
  ⟨routeOtherSQL_eq_filter, importJsonRun_main_fails, importJsonRun_main_succeeds⟩

/-- Witness for C4: concrete routing, a failing main run that never reaches
the deferred index, and a succeeding main run followed by the offset
deferred phase. -/
theorem c4_deferred_routing_witness :
    routeOtherSQL ["CREATE INDEX idx ON t(c)", "CREATE VIEW v AS SELECT 1"] =
      (["CREATE VIEW v AS SELECT 1"], ["CREATE INDEX idx ON t(c)"]) ∧
    importJsonRun execBoom ["BAD", "A"] ["I"] =
      runStatements execBoom ["BAD", "A"] 0 2 ∧
    importJsonRun execBoom ["A"] ["I"] =
      (["A"].map trimS ++ (runStatements execBoom ["I"] 0 1).1,
       (List.range 1).map (fun i => PEvent.progress (i + 1) 1)
         ++ ((runStatements execBoom ["I"] 0 1).2).map (offsetEvent 1)) :=
  ⟨c4_deferred_routing.1 _,
   c4_deferred_routing.2.1 execBoom ["BAD", "A"] ["I"] (by decide),
   c4_deferred_routing.2.2 execBoom ["A"] ["I"] (by decide) (by decide)⟩

/-! ## Lemmas about the export walker -/

theorem exportSqlStructure_dropped_not_reserved :
    ∀ (rows : List (Option String)) (n : String),
      n ∈ (exportSqlStructure rows).2 → isReservedTable n = false := by
  intro rows
  induction rows with
  | nil => intro n h; simp [exportSqlStructure] at h
  | cons r rs ih =>
    intro n h
    simp only [exportSqlStructure] at h
    rcases List.mem_append.mp h with h1 | h2
    · unfold exportSqlStructureStep at h1
      cases r with
      | none => simp at h1
      | some sql =>
        by_cases h2u : containsSub sql "__"
        · simp [h2u] at h1
        · by_cases hct : containsSub sql "CREATE TABLE"
          · by_cases hres : isReservedTable (extractTableName sql)
            · simp [h2u, hct, hres] at h1
            · simp only [h2u, hct, hres, Bool.false_eq_true, if_false, if_true,
                if_neg, List.mem_singleton] at h1
              rw [h1]
              simpa using hres
          · simp [h2u, hct] at h1
    · exact ih n h2

theorem exportSqlDataTables_not_reserved (names : List String) (n : String)
    (h : n ∈ exportSqlDataTables names) : isReservedTable n = false := by
  unfold exportSqlDataTables at h
  have := (List.mem_filter.mp h).2
  simp only [Bool.and_eq_true, Bool.not_eq_true'] at this
  exact this.2

theorem exportSqlWalkedTables_not_reserved (names : List String)
    (hnb : ∀ m ∈ names, ∀ c ∈ m.data, c ≠ backtick)
    (n : String) (h : n ∈ exportSqlWalkedTables names) :
    isReservedTable n = false := by
  unfold exportSqlWalkedTables at h
  obtain ⟨m, hm, hmn⟩ := List.mem_map.mp h
  have hres := exportSqlDataTables_not_reserved names m hm
  have hmem : m ∈ names := by
    unfold exportSqlDataTables at hm
    exact (List.mem_filter.mp hm).1
  have hun : sqlUnescape m = m := by
    unfold sqlUnescape
    rw [findBacktickGroup_of_no_backtick m.data (hnb m hmem)]
  rw [← hmn, hun]
  exact hres

theorem exportJsonStructureKeys_not_reserved :
    ∀ (rows : List (Option String)) (n : String),
      n ∈ exportJsonStructureKeys rows → isReservedTable n = false := by
  intro rows
  induction rows with
  | nil => intro n h; simp [exportJsonStructureKeys] at h
  | cons r rs ih =>
    intro n h
    simp only [exportJsonStructureKeys] at h
    rcases List.mem_append.mp h with h1 | h2
    · cases r with
      | none => simp at h1
      | some sql =>
        by_cases h2u : containsSub sql "__"
        · simp [h2u] at h1
        · by_cases hct : containsSub sql "CREATE TABLE"
          · by_cases hres : isReservedTable (extractTableName sql)
            · simp [h2u, hct, hres] at h1
            · simp only [h2u, hct, hres, Bool.false_eq_true, if_false, if_true,
                List.mem_singleton] at h1
              rw [h1]
              simpa using hres
          · simp [h2u, hct] at h1
    · exact ih n h2

theorem exportJsonInsertKeys_not_reserved (names : List String) (n : String)
    (h : n ∈ exportJsonInsertKeys names) : isReservedTable n = false := by
  unfold exportJsonInsertKeys at h
  have := (List.mem_filter.mp h).2
  simpa using this

/-- C2 counterexample — the Document→Statement compiler applies no
reserved-table check: a Document whose `structure.tables` names the
reserved catalog table compiles to a DROP and a CREATE that target it;
and the SQL export's data phase checks the reserved convention only on
the raw catalog name before unescaping, so a backtick-quoted reserved
catalog name passes the filter and the walked (unescaped) table is
reserved — the code then emits INSERTs into it.  Either way the claim's
universal reserved exclusion fails. -/
theorem c2_counterexample :
    importJsonCompile
        ⟨some ⟨[("sqlite_master", " (x)")], none⟩, some ⟨none, none, none⟩⟩ none =
      Except.ok (["DROP TABLE IF EXISTS `sqlite_master`",
                  "CREATE TABLE `sqlite_master` (x)"], []) ∧
    isReservedTable "sqlite_master" = true ∧
    exportSqlWalkedTables ["`sqlite_sequence`"] = ["sqlite_sequence"] ∧
    isReservedTable "sqlite_sequence" = true := by
  exact ⟨rfl, by decide, by decide, by decide⟩

/-- C2 amended — reserved exclusion holds on the export side only as far
as the code checks it, for every catalog content: the SQL export generates
DROP statements only for non-reserved extracted table names; the filter
building the data-phase table list rejects reserved raw catalog names;
the walked (unescaped) table of the SQL data phase is non-reserved
whenever the catalog names carry no backtick quoting (there is no second
check after unescaping, so a backtick-quoted reserved catalog name is
walked — see the counterexample); and the JSON export, which does
re-check after unescaping, creates `structure.tables` and `data.inserts`
entries only for non-reserved names.  (The import compiler, by contrast,
targets whatever table names the input Document supplies — see the
counterexample.) -/
theorem c2_reserved_exclusion_amended :
    (∀ (rows : List (Option String)) (n : String),
      n ∈ (exportSqlStructure rows).2 → isReservedTable n = false) ∧
    (∀ (names : List String) (n : String),
      n ∈ exportSqlDataTables names → isReservedTable n = false) ∧
    (∀ (names : List String),
      (∀ m ∈ names, ∀ c ∈ m.data, c ≠ backtick) →
      ∀ n : String, n ∈ exportSqlWalkedTables names →
        isReservedTable n = false) ∧
    (∀ (rows : List (Option String)) (n : String),
      n ∈ exportJsonStructureKeys rows → isReservedTable n = false) ∧
    (∀ (names : List String) (n : String),
      n ∈ exportJsonInsertKeys names → isReservedTable n = false) :=
  ⟨exportSqlStructure_dropped_not_reserved, exportSqlDataTables_not_reserved,
   exportSqlWalkedTables_not_reserved,
   exportJsonStructureKeys_not_reserved, exportJsonInsertKeys_not_reserved⟩

/-- Witness for C2 amended at a concrete catalog. -/
theorem c2_reserved_exclusion_amended_witness :
    isReservedTable "foo" = false ∧ isReservedTable "plain" = false ∧
    isReservedTable "walked" = false ∧
    isReservedTable "bar" = false ∧ isReservedTable "baz" = false :=
  ⟨c2_reserved_exclusion_amended.1 [some "CREATE TABLE foo (x)"] "foo" (by decide),
   c2_reserved_exclusion_amended.2.1 ["plain"] "plain" (by decide),
   c2_reserved_exclusion_amended.2.2.1 ["walked"] (by decide) "walked" (by decide),
   c2_reserved_exclusion_amended.2.2.2.1 [some "CREATE TABLE bar (x)"] "bar"
     (by decide),
   c2_reserved_exclusion_amended.2.2.2.2 ["baz"] "baz" (by decide)⟩

/-- C7 — a Document carrying only a `structure` section and no `data` key
does not compile: reading `json.data.inserts` throws before any statement
is submitted and the error is reported with the parse-failure prefix,
although the same Document with an empty `data` object compiles to exactly
the structure statements.  This contradicts the module's own contract
("row data and/or table structure", all Document keys optional); the code,
not the claim, is wrong. -/
theorem c7_structure_only_fails :
    importJsonCompile ⟨some ⟨[("Artist", "([Id] PRIMARY KEY,[Title])")], none⟩,
        none⟩ none =
      Except.error "Failed to parse JSON structure to SQL: TypeError: Cannot read properties of undefined (reading 'inserts')" ∧
    importJsonCompile ⟨some ⟨[("Artist", "([Id] PRIMARY KEY,[Title])")], none⟩,
        some ⟨none, none, none⟩⟩ none =
      Except.ok (["DROP TABLE IF EXISTS Artist",
                  "CREATE TABLE Artist([Id] PRIMARY KEY,[Title])"], []) := by
  exact ⟨rfl, rfl⟩

/-! ## Lemmas about null handling in insert compilation -/

theorem isNullish_valAs (f : String) (v : JVal) (h : isNullish v = true) :
    valAs f (sanitiseForSql v) = " NULL AS '" ++ f ++ "'" := by
  unfold isNullish at h
  cases hs : sanitiseForSql v with
  | none => rfl
  | some s =>
    rw [hs] at h
    simp only [decide_eq_true_eq] at h
    simp [valAs, h]

theorem isNullish_unionVal (v : JVal) (h : isNullish v = true) :
    unionVal (sanitiseForSql v) = " NULL" := by
  unfold isNullish at h
  cases hs : sanitiseForSql v with
  | none => rfl
  | some s =>
    rw [hs] at h
    simp only [decide_eq_true_eq] at h
    simp [unionVal, h]

theorem valEquiv_valAs (f : String) (v w : JVal) (h : valEquiv v w = true) :
    valAs f (sanitiseForSql v) = valAs f (sanitiseForSql w) := by
  unfold valEquiv at h
  simp only [Bool.or_eq_true, Bool.and_eq_true, beq_iff_eq] at h
  rcases h with h | ⟨h1, h2⟩
  · rw [h]
  · rw [isNullish_valAs f v h1, isNullish_valAs f w h2]

theorem valEquiv_unionVal (v w : JVal) (h : valEquiv v w = true) :
    unionVal (sanitiseForSql v) = unionVal (sanitiseForSql w) := by
  unfold valEquiv at h
  simp only [Bool.or_eq_true, Bool.and_eq_true, beq_iff_eq] at h
  rcases h with h | ⟨h1, h2⟩
  · rw [h]
  · rw [isNullish_unionVal v h1, isNullish_unionVal w h2]

theorem rowEquiv_parts :
    ∀ r1 r2 : Row, rowEquiv r1 r2 = true →
      r1.map (·.1) = r2.map (·.1) ∧
      selectClause ((r1.map (·.1)).zip (r1.map (fun p => sanitiseForSql p.2))) =
        selectClause ((r2.map (·.1)).zip (r2.map (fun p => sanitiseForSql p.2))) ∧
      unionClause (r1.map (fun p => sanitiseForSql p.2)) =
        unionClause (r2.map (fun p => sanitiseForSql p.2)) := by
  intro r1
  induction r1 with
  | nil =>
    intro r2 h
    cases r2 with
    | nil => exact ⟨rfl, rfl, rfl⟩
    | cons p r2' => simp [rowEquiv] at h
  | cons p r1' ih =>
    intro r2 h
    obtain ⟨f, v⟩ := p
    cases r2 with
    | nil => simp [rowEquiv] at h
    | cons q r2' =>
      obtain ⟨g, w⟩ := q
      rw [rowEquiv] at h
      simp only [Bool.and_eq_true, beq_iff_eq] at h
      obtain ⟨⟨hfg, hvw⟩, hrest⟩ := h
      obtain ⟨hfields, hsel, huni⟩ := ih r2' hrest
      subst hfg
      refine ⟨by simp [hfields], ?_, ?_⟩
      · cases r1' with
        | nil =>
          cases r2' with
          | nil => simp [selectClause, valEquiv_valAs f v w hvw]
          | cons q2 r2'' => simp [rowEquiv] at hrest
        | cons p2 r1'' =>
          cases r2' with
          | nil => simp [rowEquiv] at hrest
          | cons q2 r2'' =>
            obtain ⟨f2, v2⟩ := p2
            obtain ⟨g2, w2⟩ := q2
            simp only [List.map_cons, List.zip_cons_cons, List.zip,
              List.zipWith_cons_cons, selectClause] at hsel ⊢
            rw [valEquiv_valAs f v w hvw, hsel]
      · cases r1' with
        | nil =>
          cases r2' with
          | nil => simp [unionClause, valEquiv_unionVal v w hvw]
          | cons q2 r2'' => simp [rowEquiv] at hrest
        | cons p2 r1'' =>
          cases r2' with
          | nil => simp [rowEquiv] at hrest
          | cons q2 r2'' =>
            simp only [List.map_cons, unionClause] at huni ⊢
            rw [valEquiv_unionVal v w hvw, huni]

theorem rowEquiv_insertRows (tbl : String) (r1 r2 : Row)
    (h : rowEquiv r1 r2 = true) :
    insertRowFirst tbl r1 = insertRowFirst tbl r2 ∧
    insertRowUnion r1 = insertRowUnion r2 := by
  obtain ⟨hfields, hsel, huni⟩ := rowEquiv_parts r1 r2 h
  constructor
  · simp only [insertRowFirst]
    rw [hsel, hfields]
  · simp only [insertRowUnion]
    rw [huni]

theorem rowsEquiv_insertLoop (tbl : String) (B : Nat) :
    ∀ (l1 l2 : List Row) (cur : String) (count : Nat),
      rowsEquiv l1 l2 = true →
      insertLoop tbl B l1 cur count = insertLoop tbl B l2 cur count := by
  intro l1
  induction l1 with
  | nil =>
    intro l2 cur count h
    cases l2 with
    | nil => rfl
    | cons r l2' => simp [rowsEquiv] at h
  | cons r l1' ih =>
    intro l2 cur count h
    cases l2 with
    | nil => simp [rowsEquiv] at h
    | cons q l2' =>
      rw [rowsEquiv] at h
      simp only [Bool.and_eq_true] at h
      obtain ⟨hr, hrest⟩ := h
      obtain ⟨hfirst, hunion⟩ := rowEquiv_insertRows tbl r q hr
      rw [insertLoop, insertLoop, hfirst, hunion, ih l2' _ _ hrest,
        ih l2' _ _ hrest, ih l2' _ _ hrest]

theorem rowsEquiv_compile_doc (tbl : String) (o : Option Nat)
    (rows1 rows2 : List Row) (h : rowsEquiv rows1 rows2 = true) :
    importJsonCompile (singleInsertDoc tbl rows1) o =
      importJsonCompile (singleInsertDoc tbl rows2) o := by
  simp only [importJsonCompile, singleInsertDoc, compileTableInserts,
    List.map_cons, List.map_nil]
  rw [rowsEquiv_insertLoop tbl (effectiveBatchInsertSize o) rows1 rows2 "" 0 h]

/-- C10 — a scalar whose sanitised string form spells `null` ignoring case
is compiled exactly as a true null: it is emitted as the unquoted keyword
`NULL` in both the projection and union positions, the string values
`"null"` and `"NULL"` are nullish just as the null scalar is, and two row
sets differing only in such nullish values (in particular null versus the
string `"null"`) compile to identical statements, both at the per-table
level and through `importJsonToDb`'s whole compilation — so the string
`"null"` can never be imported as a string literal. -/
theorem c10_null_string_insert :
    (∀ (f : String) (v : JVal), isNullish v = true →
      valAs f (sanitiseForSql v) = " NULL AS '" ++ f ++ "'" ∧
      unionVal (sanitiseForSql v) = " NULL") ∧
    (isNullish JVal.null = true ∧ isNullish (JVal.s "null") = true ∧
      isNullish (JVal.s "NULL") = true) ∧
    (∀ (tbl : String) (B : Nat) (rows1 rows2 : List Row),
      rowsEquiv rows1 rows2 = true →
      compileTableInserts tbl B rows1 = compileTableInserts tbl B rows2) ∧
    (∀ (tbl : String) (o : Option Nat) (rows1 rows2 : List Row),
      rowsEquiv rows1 rows2 = true →
      importJsonCompile (singleInsertDoc tbl rows1) o =
        importJsonCompile (singleInsertDoc tbl rows2) o) := by
  refine ⟨?_, ⟨by decide, by decide, by decide⟩, ?_, rowsEquiv_compile_doc⟩
  · intro f v h
    exact ⟨isNullish_valAs f v h, isNullish_unionVal v h⟩
  · intro tbl B rows1 rows2 h
    exact rowsEquiv_insertLoop tbl B rows1 rows2 "" 0 h

/-- Witness for C10 at concrete nullish rows. -/
theorem c10_null_string_insert_witness :
    (valAs "a" (sanitiseForSql JVal.null) = " NULL AS 'a'" ∧
     unionVal (sanitiseForSql JVal.null) = " NULL") ∧
    compileTableInserts "t" 2 [[("a", JVal.null)]] =
      compileTableInserts "t" 2 [[("a", JVal.s "NULL")]] ∧
    importJsonCompile (singleInsertDoc "t" [[("a", JVal.null)]]) none =
      importJsonCompile (singleInsertDoc "t" [[("a", JVal.s "null")]]) none :=
  ⟨c10_null_string_insert.1 "a" JVal.null (by decide),
   c10_null_string_insert.2.2.1 "t" 2 [[("a", JVal.null)]]
     [[("a", JVal.s "NULL")]] (by decide),
   c10_null_string_insert.2.2.2 "t" none [[("a", JVal.null)]]
     [[("a", JVal.s "null")]] (by decide)⟩

/-! ## Lemmas about the tokenizer -/

theorem scanQuoted_spec (q : Char) :
    ∀ (n : Nat) (cs : List Char), cs.length ≤ n →
      ∀ t r, scanQuoted q cs = some (t, r) → t ≠ [] ∧ cs = t ++ r := by
  intro n
  induction n with
  | zero =>
    intro cs hlen t r h
    have hnil : cs = [] := List.eq_nil_of_length_eq_zero (Nat.le_zero.mp hlen)
    subst hnil
    simp [scanQuoted] at h
  | succ n ih =>
    intro cs hlen t r h
    cases cs with
    | nil => simp [scanQuoted] at h
    | cons c cs' =>
      rw [scanQuoted.eq_def] at h
      simp only at h
      by_cases hq : c = q
      · rw [if_pos hq] at h
        simp only [Option.some.injEq, Prod.mk.injEq] at h
        obtain ⟨ht, hr⟩ := h
        subst ht
        subst hr
        exact ⟨by simp, by simp⟩
      · rw [if_neg hq] at h
        by_cases hbs : c = '\\'
        · rw [if_pos hbs] at h
          cases cs' with
          | nil => simp at h
          | cons d ds =>
            dsimp only at h
            by_cases hd : jsDot d
            · rw [if_pos hd] at h
              cases hrec : scanQuoted q ds with
              | none => rw [hrec] at h; simp at h
              | some p =>
                obtain ⟨t0, r0⟩ := p
                rw [hrec] at h
                simp only [Option.some.injEq, Prod.mk.injEq] at h
                obtain ⟨ht, hr⟩ := h
                have hlen' : ds.length ≤ n := by
                  simp only [List.length_cons] at hlen; omega
                have hih := ih ds hlen' t0 r0 hrec
                subst ht
                subst hr
                exact ⟨by simp, by simp [hih.2]⟩
            · rw [if_neg hd] at h
              simp at h
        · rw [if_neg hbs] at h
          cases hrec : scanQuoted q cs' with
          | none => rw [hrec] at h; simp at h
          | some p =>
            obtain ⟨t0, r0⟩ := p
            rw [hrec] at h
            simp only [Option.some.injEq, Prod.mk.injEq] at h
            obtain ⟨ht, hr⟩ := h
            have hlen' : cs'.length ≤ n := by
              simp only [List.length_cons] at hlen; omega
            have hih := ih cs' hlen' t0 r0 hrec
            subst ht
            subst hr
            exact ⟨by simp, by simp [hih.2]⟩

theorem scanQuoted_append (q : Char) (cs t r : List Char)
    (h : scanQuoted q cs = some (t, r)) : cs = t ++ r :=
  (scanQuoted_spec q cs.length cs (le_refl _) t r h).2

theorem scanQuoted_length (q : Char) (cs t r : List Char)
    (h : scanQuoted q cs = some (t, r)) : r.length < cs.length := by
  obtain ⟨hne, heq⟩ := scanQuoted_spec q cs.length cs (le_refl _) t r h
  have : cs.length = t.length + r.length := by rw [heq]; simp
  have ht : 0 < t.length := List.length_pos.mpr hne
  omega

theorem scanStatementF_irrel :
    ∀ (f g : Nat) (cs : List Char), cs.length ≤ f → cs.length ≤ g →
      scanStatementF f cs = scanStatementF g cs := by
  intro f
  induction f with
  | zero =>
    intro g cs hf hg
    have hnil : cs = [] := List.eq_nil_of_length_eq_zero (Nat.le_zero.mp hf)
    subst hnil
    cases g <;> simp [scanStatementF]
  | succ f ih =>
    intro g cs hf hg
    cases cs with
    | nil => cases g <;> simp [scanStatementF]
    | cons c cs' =>
      cases g with
      | zero => simp at hg
      | succ g =>
        simp only [List.length_cons] at hf hg
        rw [scanStatementF, scanStatementF]
        by_cases hsemi : c = ';'
        · rw [if_pos hsemi, if_pos hsemi]
        · rw [if_neg hsemi, if_neg hsemi]
          by_cases hq : c = '"' ∨ c = '\''
          · rw [if_pos hq, if_pos hq]
            cases hrec : scanQuoted c cs' with
            | none => rfl
            | some p =>
              obtain ⟨t, r⟩ := p
              have hlt := scanQuoted_length c cs' t r hrec
              simp only
              rw [ih g r (by omega) (by omega)]
          · rw [if_neg hq, if_neg hq]
            simp only
            rw [ih g cs' (by omega) (by omega)]

theorem scanStatement_semi (cs : List Char) :
    scanStatement (';' :: cs) = ([], ';' :: cs) := by
  rw [scanStatement]
  simp only [List.length_cons]
  rw [scanStatementF, if_pos rfl]

theorem scanStatement_quote_some (c : Char) (cs t r : List Char)
    (hq : c = '"' ∨ c = '\'') (h : scanQuoted c cs = some (t, r)) :
    scanStatement (c :: cs) =
      (c :: (t ++ (scanStatement r).1), (scanStatement r).2) := by
  have hsemi : ¬ c = ';' := by
    rcases hq with h1 | h1 <;> subst h1 <;> decide
  have hlt := scanQuoted_length c cs t r h
  rw [scanStatement]
  simp only [List.length_cons]
  rw [scanStatementF, if_neg hsemi, if_pos hq, h]
  simp only
  rw [scanStatementF_irrel cs.length r.length r (by omega) (le_refl _)]
  rfl

theorem scanStatement_quote_none (c : Char) (cs : List Char)
    (hq : c = '"' ∨ c = '\'') (h : scanQuoted c cs = none) :
    scanStatement (c :: cs) = ([], c :: cs) := by
  have hsemi : ¬ c = ';' := by
    rcases hq with h1 | h1 <;> subst h1 <;> decide
  rw [scanStatement]
  simp only [List.length_cons]
  rw [scanStatementF, if_neg hsemi, if_pos hq, h]

theorem scanStatement_other (c : Char) (cs : List Char)
    (hsemi : ¬ c = ';') (hq : ¬ (c = '"' ∨ c = '\'')) :
    scanStatement (c :: cs) =
      (c :: (scanStatement cs).1, (scanStatement cs).2) := by
  rw [scanStatement]
  simp only [List.length_cons]
  rw [scanStatementF, if_neg hsemi, if_neg hq]
  rfl

theorem scanStatement_append :
    ∀ (n : Nat) (cs : List Char), cs.length ≤ n →
      cs = (scanStatement cs).1 ++ (scanStatement cs).2 := by
  intro n
  induction n with
  | zero =>
    intro cs hlen
    have hnil : cs = [] := List.eq_nil_of_length_eq_zero (Nat.le_zero.mp hlen)
    subst hnil
    rfl
  | succ n ih =>
    intro cs hlen
    cases cs with
    | nil => rfl
    | cons c cs' =>
      simp only [List.length_cons] at hlen
      by_cases hsemi : c = ';'
      · subst hsemi
        rw [scanStatement_semi]
        rfl
      · by_cases hq : c = '"' ∨ c = '\''
        · cases hrec : scanQuoted c cs' with
          | none => rw [scanStatement_quote_none c cs' hq hrec]; rfl
          | some p =>
            obtain ⟨t, r⟩ := p
            rw [scanStatement_quote_some c cs' t r hq hrec]
            have hlt := scanQuoted_length c cs' t r hrec
            have happ := scanQuoted_append c cs' t r hrec
            have := ih r (by omega)
            simp only [List.cons_append, List.append_assoc]
            rw [← this, ← happ]
        · rw [scanStatement_other c cs' hsemi hq]
          have := ih cs' (by omega)
          simp only [List.cons_append]
          rw [← this]

theorem scanStatement_rest_le (c : Char) (cs : List Char)
    (hm : (scanStatement (c :: cs)).1 ≠ []) :
    (scanStatement (c :: cs)).2.length ≤ cs.length := by
  have happ := scanStatement_append (c :: cs).length (c :: cs) (le_refl _)
  have hlen : (c :: cs).length =
      (scanStatement (c :: cs)).1.length + (scanStatement (c :: cs)).2.length := by
    conv_lhs => rw [happ]
    simp
  have h1 : 0 < (scanStatement (c :: cs)).1.length := List.length_pos.mpr hm
  simp only [List.length_cons] at hlen
  omega

theorem tokenizeAuxF_irrel :
    ∀ (f g : Nat) (cs : List Char), cs.length ≤ f → cs.length ≤ g →
      tokenizeAuxF f cs = tokenizeAuxF g cs := by
  intro f
  induction f with
  | zero =>
    intro g cs hf hg
    have hnil : cs = [] := List.eq_nil_of_length_eq_zero (Nat.le_zero.mp hf)
    subst hnil
    cases g <;> simp [tokenizeAuxF]
  | succ f ih =>
    intro g cs hf hg
    cases cs with
    | nil => cases g <;> simp [tokenizeAuxF]
    | cons c cs' =>
      cases g with
      | zero => simp at hg
      | succ g =>
        simp only [List.length_cons] at hf hg
        rw [tokenizeAuxF, tokenizeAuxF]
        by_cases hskip : jsWs c ∨ c = ';'
        · rw [if_pos hskip, if_pos hskip]
          exact ih g cs' (by omega) (by omega)
        · rw [if_neg hskip, if_neg hskip]
          dsimp only
          by_cases hm : (scanStatement (c :: cs')).1 = []
          · rw [if_pos hm, if_pos hm, ih g cs' (by omega) (by omega)]
          · rw [if_neg hm, if_neg hm]
            have hle := scanStatement_rest_le c cs' hm
            rw [ih g (scanStatement (c :: cs')).2 (by omega) (by omega)]

theorem tokenize_skip (c : Char) (cs : List Char) (h : jsWs c ∨ c = ';') :
    tokenize (c :: cs) = tokenize cs := by
  rw [tokenize]
  simp only [List.length_cons]
  rw [tokenizeAuxF, if_pos h]
  rfl

theorem tokenize_match (c : Char) (cs : List Char) (h : ¬ (jsWs c ∨ c = ';'))
    (hm : (scanStatement (c :: cs)).1 ≠ []) :
    tokenize (c :: cs) =
      (scanStatement (c :: cs)).1 :: tokenize (scanStatement (c :: cs)).2 := by
  rw [tokenize]
  simp only [List.length_cons]
  rw [tokenizeAuxF, if_neg h]
  dsimp only
  rw [if_neg hm]
  have hle := scanStatement_rest_le c cs hm
  rw [tokenizeAuxF_irrel cs.length (scanStatement (c :: cs)).2.length
    (scanStatement (c :: cs)).2 hle (le_refl _)]
  rfl

theorem splitTopF_ne_nil : ∀ (f : Nat) (cs : List Char), splitTopF f cs ≠ [] := by
  intro f cs
  cases f with
  | zero => simp [splitTopF]
  | succ f =>
    cases cs with
    | nil => simp [splitTopF]
    | cons c cs' =>
      rw [splitTopF]
      by_cases h1 : c = ';'
      · simp [h1]
      · rw [if_neg h1]
        by_cases h2 : c = '"' ∨ c = '\''
        · rw [if_pos h2]
          cases hq2 : scanQuoted c cs' with
          | none => simp
          | some p =>
            obtain ⟨t, r⟩ := p
            rcases hsp : splitTopF f r with _ | ⟨seg, rest⟩ <;> simp [hsp]
        · rw [if_neg h2]
          rcases hsp : splitTopF f cs' with _ | ⟨seg, rest⟩ <;> simp [hsp]

theorem splitTop_ne_nil (cs : List Char) : splitTop cs ≠ [] :=
  splitTopF_ne_nil cs.length cs

theorem splitTopF_irrel :
    ∀ (f g : Nat) (cs : List Char), cs.length ≤ f → cs.length ≤ g →
      splitTopF f cs = splitTopF g cs := by
  intro f
  induction f with
  | zero =>
    intro g cs hf hg
    have hnil : cs = [] := List.eq_nil_of_length_eq_zero (Nat.le_zero.mp hf)
    subst hnil
    cases g <;> simp [splitTopF]
  | succ f ih =>
    intro g cs hf hg
    cases cs with
    | nil => cases g <;> simp [splitTopF]
    | cons c cs' =>
      cases g with
      | zero => simp at hg
      | succ g =>
        simp only [List.length_cons] at hf hg
        rw [splitTopF, splitTopF]
        by_cases h1 : c = ';'
        · rw [if_pos h1, if_pos h1, ih g cs' (by omega) (by omega)]
        · rw [if_neg h1, if_neg h1]
          by_cases h2 : c = '"' ∨ c = '\''
          · rw [if_pos h2, if_pos h2]
            cases hrec : scanQuoted c cs' with
            | none => rfl
            | some p =>
              obtain ⟨t, r⟩ := p
              have hlt := scanQuoted_length c cs' t r hrec
              dsimp only
              rw [ih g r (by omega) (by omega)]
          · rw [if_neg h2, if_neg h2]
            rw [ih g cs' (by omega) (by omega)]

theorem splitTop_semi (cs : List Char) :
    splitTop (';' :: cs) = [] :: splitTop cs := by
  rw [splitTop]
  simp only [List.length_cons]
  rw [splitTopF, if_pos rfl]
  rfl

theorem splitTop_quote_some (c : Char) (cs t r : List Char)
    (hq : c = '"' ∨ c = '\'') (h : scanQuoted c cs = some (t, r))
    (seg : List Char) (rest : List (List Char))
    (hs : splitTop r = seg :: rest) :
    splitTop (c :: cs) = (c :: (t ++ seg)) :: rest := by
  have hsemi : ¬ c = ';' := by
    rcases hq with h1 | h1 <;> subst h1 <;> decide
  have hlt := scanQuoted_length c cs t r h
  rw [splitTop]
  simp only [List.length_cons]
  rw [splitTopF, if_neg hsemi, if_pos hq, h]
  dsimp only
  rw [splitTopF_irrel cs.length r.length r (by omega) (le_refl _)]
  have hsp : splitTopF r.length r = splitTop r := rfl
  rw [hsp, hs]

theorem splitTop_other (c : Char) (cs : List Char)
    (hsemi : ¬ c = ';') (hq : ¬ (c = '"' ∨ c = '\''))
    (seg : List Char) (rest : List (List Char))
    (hs : splitTop cs = seg :: rest) :
    splitTop (c :: cs) = (c :: seg) :: rest := by
  rw [splitTop]
  simp only [List.length_cons]
  rw [splitTopF, if_neg hsemi, if_neg hq]
  have hsp : splitTopF cs.length cs = splitTop cs := rfl
  rw [hsp, hs]

theorem wellFormedTopF_irrel :
    ∀ (f g : Nat) (cs : List Char), cs.length ≤ f → cs.length ≤ g →
      wellFormedTopF f cs = wellFormedTopF g cs := by
  intro f
  induction f with
  | zero =>
    intro g cs hf hg
    have hnil : cs = [] := List.eq_nil_of_length_eq_zero (Nat.le_zero.mp hf)
    subst hnil
    cases g <;> simp [wellFormedTopF]
  | succ f ih =>
    intro g cs hf hg
    cases cs with
    | nil => cases g <;> simp [wellFormedTopF]
    | cons c cs' =>
      cases g with
      | zero => simp at hg
      | succ g =>
        simp only [List.length_cons] at hf hg
        rw [wellFormedTopF, wellFormedTopF]
        by_cases h2 : c = '"' ∨ c = '\''
        · rw [if_pos h2, if_pos h2]
          cases hrec : scanQuoted c cs' with
          | none => rfl
          | some p =>
            obtain ⟨t, r⟩ := p
            have hlt := scanQuoted_length c cs' t r hrec
            exact ih g r (by omega) (by omega)
        · rw [if_neg h2, if_neg h2]
          exact ih g cs' (by omega) (by omega)

theorem wellFormedTop_quote_some (c : Char) (cs t r : List Char)
    (hq : c = '"' ∨ c = '\'') (h : scanQuoted c cs = some (t, r)) :
    wellFormedTop (c :: cs) = wellFormedTop r := by
  have hlt := scanQuoted_length c cs t r h
  rw [wellFormedTop]
  simp only [List.length_cons]
  rw [wellFormedTopF, if_pos hq, h]
  exact wellFormedTopF_irrel cs.length r.length r (by omega) (le_refl _)

theorem wellFormedTop_quote_none (c : Char) (cs : List Char)
    (hq : c = '"' ∨ c = '\'') (h : scanQuoted c cs = none) :
    wellFormedTop (c :: cs) = false := by
  rw [wellFormedTop]
  simp only [List.length_cons]
  rw [wellFormedTopF, if_pos hq, h]

theorem wellFormedTop_other (c : Char) (cs : List Char)
    (hq : ¬ (c = '"' ∨ c = '\'')) :
    wellFormedTop (c :: cs) = wellFormedTop cs := by
  rw [wellFormedTop]
  simp only [List.length_cons]
  rw [wellFormedTopF, if_neg hq]
  exact wellFormedTopF_irrel cs.length cs.length cs (le_refl _) (le_refl _)

theorem jsWs_not_special (c : Char) (h : jsWs c = true) :
    ¬ c = ';' ∧ ¬ (c = '"' ∨ c = '\'') := by
  unfold jsWs at h
  simp only [Bool.or_eq_true, decide_eq_true_eq] at h
  rcases h with ((((h | h) | h) | h) | h) | h <;> subst h <;>
    exact ⟨by decide, by decide⟩

theorem scan_split_align :
    ∀ (n : Nat) (cs : List Char), cs.length ≤ n → wellFormedTop cs = true →
      ((scanStatement cs).2 = [] ∧ splitTop cs = [(scanStatement cs).1]) ∨
      (∃ r', (scanStatement cs).2 = ';' :: r' ∧
        splitTop cs = (scanStatement cs).1 :: splitTop r' ∧
        wellFormedTop r' = true) := by
  intro n
  induction n with
  | zero =>
    intro cs hlen _
    have hnil : cs = [] := List.eq_nil_of_length_eq_zero (Nat.le_zero.mp hlen)
    subst hnil
    left
    exact ⟨rfl, rfl⟩
  | succ n ih =>
    intro cs hlen hwf
    cases cs with
    | nil => left; exact ⟨rfl, rfl⟩
    | cons c cs' =>
      simp only [List.length_cons] at hlen
      by_cases hsemi : c = ';'
      · subst hsemi
        right
        refine ⟨cs', ?_, ?_, ?_⟩
        · rw [scanStatement_semi]
        · rw [scanStatement_semi, splitTop_semi]
        · rw [wellFormedTop_other _ _ (by decide)] at hwf
          exact hwf
      · by_cases hq : c = '"' ∨ c = '\''
        · cases hrec : scanQuoted c cs' with
          | none =>
            rw [wellFormedTop_quote_none c cs' hq hrec] at hwf
            exact absurd hwf (by simp)
          | some p =>
            obtain ⟨t, r0⟩ := p
            have hwf0 : wellFormedTop r0 = true := by
              rw [wellFormedTop_quote_some c cs' t r0 hq hrec] at hwf
              exact hwf
            have hlt := scanQuoted_length c cs' t r0 hrec
            have hih := ih r0 (by omega) hwf0
            rw [scanStatement_quote_some c cs' t r0 hq hrec]
            rcases hih with ⟨hr1, hsp⟩ | ⟨r', hr1, hsp, hwf'⟩
            · left
              constructor
              · simpa using hr1
              · have := splitTop_quote_some c cs' t r0 hq hrec
                  (scanStatement r0).1 [] hsp
                simpa using this
            · right
              refine ⟨r', by simpa using hr1, ?_, hwf'⟩
              have := splitTop_quote_some c cs' t r0 hq hrec
                (scanStatement r0).1 (splitTop r') hsp
              simpa using this
        · have hwf' : wellFormedTop cs' = true := by
            rw [wellFormedTop_other c cs' hq] at hwf
            exact hwf
          have hih := ih cs' (by omega) hwf'
          rw [scanStatement_other c cs' hsemi hq]
          rcases hih with ⟨hr1, hsp⟩ | ⟨r', hr1, hsp, hwf2⟩
          · left
            constructor
            · simpa using hr1
            · have := splitTop_other c cs' hsemi hq (scanStatement cs').1 [] hsp
              simpa using this
          · right
            refine ⟨r', by simpa using hr1, ?_, hwf2⟩
            have := splitTop_other c cs' hsemi hq
              (scanStatement cs').1 (splitTop r') hsp
            simpa using this

theorem trimChars_cons_ws (c : Char) (l : List Char) (h : jsWs c = true) :
    trimChars (c :: l) = trimChars l := by
  unfold trimChars
  rw [List.dropWhile_cons]
  simp [h]

theorem trimChars_cons_ne (c : Char) (l : List Char) (h : jsWs c = false) :
    trimChars (c :: l) ≠ [] := by
  unfold trimChars
  rw [List.dropWhile_cons]
  simp only [h, Bool.false_eq_true, if_false]
  unfold trimTrail
  intro hempty
  have hrev : (c :: l).reverse.dropWhile jsWs = [] := by
    have := congrArg List.reverse hempty
    simpa using this
  rw [List.dropWhile_eq_nil_iff] at hrev
  have hc : c ∈ (c :: l).reverse := by simp
  have := hrev c hc
  rw [h] at this
  exact absurd this (by simp)

theorem tokenize_eq_split_aux :
    ∀ (n : Nat) (cs : List Char), cs.length ≤ n → wellFormedTop cs = true →
      (tokenize cs).map trimChars =
        ((splitTop cs).map trimChars).filter (fun l => !l.isEmpty) ∧
      ∀ t ∈ tokenize cs, t ≠ [] := by
  intro n
  induction n with
  | zero =>
    intro cs hlen _
    have hnil : cs = [] := List.eq_nil_of_length_eq_zero (Nat.le_zero.mp hlen)
    subst hnil
    exact ⟨rfl, by intro t ht; simp [tokenize, tokenizeAuxF] at ht⟩
  | succ n ih =>
    intro cs hlen hwf
    cases cs with
    | nil => exact ⟨rfl, by intro t ht; simp [tokenize, tokenizeAuxF] at ht⟩
    | cons c cs' =>
      simp only [List.length_cons] at hlen
      obtain ⟨seg, rest, hsp'⟩ : ∃ seg rest, splitTop cs' = seg :: rest := by
        cases hx : splitTop cs' with
        | nil => exact absurd hx (splitTop_ne_nil cs')
        | cons a b => exact ⟨a, b, rfl⟩
      by_cases hws : jsWs c = true
      · obtain ⟨hsemi, hq⟩ := jsWs_not_special c hws
        have hwf' : wellFormedTop cs' = true := by
          rw [wellFormedTop_other c cs' hq] at hwf
          exact hwf
        have hih := ih cs' (by omega) hwf'
        rw [tokenize_skip c cs' (Or.inl hws),
          splitTop_other c cs' hsemi hq seg rest hsp']
        refine ⟨?_, hih.2⟩
        rw [hih.1, hsp']
        simp only [List.map_cons, trimChars_cons_ws c seg hws]
      · by_cases hsemi : c = ';'
        · subst hsemi
          have hwf' : wellFormedTop cs' = true := by
            rw [wellFormedTop_other _ cs' (by decide)] at hwf
            exact hwf
          have hih := ih cs' (by omega) hwf'
          rw [tokenize_skip _ cs' (Or.inr rfl), splitTop_semi]
          refine ⟨?_, hih.2⟩
          rw [hih.1]
          have h0 : trimChars ([] : List Char) = [] := rfl
          simp [List.filter_cons, h0]
        · have hnskip : ¬ (jsWs c ∨ c = ';') := by
            intro hcontra
            rcases hcontra with h1 | h1
            · exact hws h1
            · exact hsemi h1
          have hm_shape : ∃ m', (scanStatement (c :: cs')).1 = c :: m' := by
            by_cases hq : c = '"' ∨ c = '\''
            · cases hrec : scanQuoted c cs' with
              | none =>
                rw [wellFormedTop_quote_none c cs' hq hrec] at hwf
                exact absurd hwf (by simp)
              | some p =>
                obtain ⟨t, r0⟩ := p
                rw [scanStatement_quote_some c cs' t r0 hq hrec]
                exact ⟨_, rfl⟩
            · rw [scanStatement_other c cs' hsemi hq]
              exact ⟨_, rfl⟩
          obtain ⟨m', hm⟩ := hm_shape
          have hm_ne : (scanStatement (c :: cs')).1 ≠ [] := by
            rw [hm]
            simp
          have hwsf : jsWs c = false := by
            cases hx : jsWs c with
            | false => rfl
            | true => exact absurd hx hws
          have htrim_ne : trimChars (scanStatement (c :: cs')).1 ≠ [] := by
            rw [hm]
            exact trimChars_cons_ne c m' hwsf
          have htrim_empty :
              (trimChars (scanStatement (c :: cs')).1).isEmpty = false := by
            cases hx : trimChars (scanStatement (c :: cs')).1 with
            | nil => exact absurd hx htrim_ne
            | cons a b => rfl
          rw [tokenize_match c cs' hnskip hm_ne]
          have halign := scan_split_align (cs'.length + 1) (c :: cs') (by simp) hwf
          rcases halign with ⟨hr, hsp⟩ | ⟨r'', hr, hsp, hwf''⟩
          · rw [hr, hsp]
            constructor
            · simp only [List.map_cons, List.map_nil, List.filter_cons,
                htrim_empty, Bool.not_false, if_true]
              rfl
            · intro t ht
              simp only [List.mem_cons] at ht
              rcases ht with ht | ht
              · rw [ht]
                exact hm_ne
              · simp [tokenize, tokenizeAuxF] at ht
          · have happ := scanStatement_append (c :: cs').length (c :: cs') (le_refl _)
            have hm_len : 0 < (scanStatement (c :: cs')).1.length :=
              List.length_pos.mpr hm_ne
            have hr_len : r''.length ≤ n := by
              have hlen2 : (c :: cs').length =
                  (scanStatement (c :: cs')).1.length +
                    (scanStatement (c :: cs')).2.length := by
                conv_lhs => rw [happ]
                simp
              rw [hr] at hlen2
              simp only [List.length_cons] at hlen2
              omega
            have hih := ih r'' hr_len hwf''
            rw [hr, hsp, tokenize_skip _ r'' (Or.inr rfl)]
            constructor
            · simp only [List.map_cons]
              rw [hih.1]
              simp only [List.filter_cons, htrim_empty, Bool.not_false, if_true]
            · intro t ht
              simp only [List.mem_cons] at ht
              rcases ht with ht | ht
              · rw [ht]
                exact hm_ne
              · exact hih.2 t ht

/-- C5 counterexample — the text `a;;b` has two statement-terminating
semicolons outside any literal and trailing content after the last one, so
the claim demands exactly k+1 = 3 statements; the Tokenizer yields 2,
because the empty segment between the consecutive semicolons produces no
match. -/
theorem c5_counterexample :
    wellFormedTop "a;;b".data = true ∧
    splitTop "a;;b".data = [['a'], [], ['b']] ∧
    topSemiCount "a;;b".data = 2 ∧
    tokenize "a;;b".data = [['a'], ['b']] ∧
    (tokenize "a;;b".data).length ≠ 2 + 1 := by
  exact ⟨by decide, by decide, by decide, by decide, by decide⟩

/-- C5 amended — on raw text whose string literals are well formed, the
Tokenizer yields, in order, exactly the non-empty (after trimming)
segments of the text cut at the semicolons outside any string literal: a
semicolon inside a single- or double-quoted literal never causes a split,
empty and whitespace-only segments are discarded (so the count is at most
k+1 for k top-level semicolons, not exactly k or k+1), every produced
statement is non-empty, and the reported total count (the length of the
match list) equals the number of non-empty statements. -/
theorem c5_tokenizer_amended (cs : List Char) (h : wellFormedTop cs = true) :
    (tokenize cs).map trimChars =
      ((splitTop cs).map trimChars).filter (fun l => !l.isEmpty) ∧
    (∀ t ∈ tokenize cs, t ≠ []) ∧
    (tokenize cs).length ≤ topSemiCount cs + 1 ∧
    ((tokenize cs).filter (fun t => !t.isEmpty)).length =
      (tokenize cs).length := by
  obtain ⟨h1, h2⟩ := tokenize_eq_split_aux cs.length cs (le_refl _) h
  refine ⟨h1, h2, ?_, ?_⟩
  · have hlen : (tokenize cs).length =
        (((splitTop cs).map trimChars).filter (fun l => !l.isEmpty)).length := by
      rw [← h1]
      simp
    have hle : (((splitTop cs).map trimChars).filter
        (fun l => !l.isEmpty)).length ≤ (splitTop cs).length := by
      calc (((splitTop cs).map trimChars).filter (fun l => !l.isEmpty)).length
          ≤ ((splitTop cs).map trimChars).length := List.length_filter_le _ _
        _ = (splitTop cs).length := List.length_map _ _
    have hpos : 0 < (splitTop cs).length :=
      List.length_pos.mpr (splitTop_ne_nil cs)
    unfold topSemiCount
    omega
  · have hall : ∀ t ∈ tokenize cs, (fun t : List Char => !t.isEmpty) t = true := by
      intro t ht
      have := h2 t ht
      simp only [Bool.not_eq_true']
      cases hx : t with
      | nil => exact absurd hx this
      | cons a b => rfl
    rw [List.filter_eq_self.mpr hall]

/-- Witness for C5 amended at a concrete well-formed input containing a
quoted semicolon. -/
theorem c5_tokenizer_amended_witness :
    (tokenize "SELECT 'a;b'; DROP x ".data).map trimChars =
      ((splitTop "SELECT 'a;b'; DROP x ".data).map trimChars).filter
        (fun l => !l.isEmpty) ∧
    (∀ t ∈ tokenize "SELECT 'a;b'; DROP x ".data, t ≠ []) ∧
    (tokenize "SELECT 'a;b'; DROP x ".data).length ≤
      topSemiCount "SELECT 'a;b'; DROP x ".data + 1 ∧
    ((tokenize "SELECT 'a;b'; DROP x ".data).filter
        (fun t => !t.isEmpty)).length =
      (tokenize "SELECT 'a;b'; DROP x ".data).length :=
  c5_tokenizer_amended "SELECT 'a;b'; DROP x ".data (by decide)
